import Mathlib

/-!
Verification of the directory synchronization and navigation engine of the
OS.js FileManager application (src/index.js), as a shallow embedding.

JavaScript values are modelled as follows: strings are `String`, numbers
that hold counts/sizes are `Int` (JS numbers are floats, but every claim
only exercises integer arithmetic), `undefined` string fields are
`Option.none`, JS objects holding file entries are the structure `JSObj`
whose optional fields model absent properties, and fallible `await`ed
backend calls are `Except String` values supplied through an environment
record.  Mutation of the shared `state` object is modelled by explicit
state passing.
-/

/-- A JS file-entry object (the duck-typed objects flowing through
`createFileItem`, `currentList`, `addToRenderedList`, ...).  `filename`,
`name`, `typ` and `mime` are `Option` because the corresponding JS
properties can be absent (`undefined`); `typ` models the JS property
`type` of raw upload descriptors.  Display-only fields that no claim
touches (`stat` timestamps) are omitted. -/
structure JSObj where
  filename : Option String := none
  name : Option String := none
  typ : Option String := none
  path : String := ""
  isDirectory : Bool := false
  isFile : Bool := false
  mime : Option String := none
  humanSize : String := ""
  size : Int := 0
deriving DecidableEq, Repr

/-- JS `===` on two possibly-undefined strings (`undefined === undefined`
is `true`, strings compare by value). -/
def jsStrEq (a b : Option String) : Bool :=
  decide (a = b)

/-- Lexicographic comparison of character sequences by code point, the
JS `<` relational comparison on strings (JS compares UTF-16 code units;
this agrees with code-point order on all strings without surrogate
pairs, which is the only case the source can meaningfully rely on). -/
def strLtB : List Char → List Char → Bool
  | _, [] => false
  | [], _ :: _ => true
  | a :: as, b :: bs =>
    if a.toNat < b.toNat then true
    else if b.toNat < a.toNat then false
    else strLtB as bs

/-- JS `<` on two possibly-undefined strings: both defined compares
lexicographically, any comparison involving `undefined` is `false`. -/
def jsStrLt (a b : Option String) : Bool :=
  match a, b with
  | some x, some y => strLtB x.data y.data
  | _, _ => false

/-- JS `>` on two possibly-undefined strings. -/
def jsStrGt (a b : Option String) : Bool :=
  jsStrLt b a

/-- JS truthiness of a possibly-undefined string: `undefined` and `''`
are falsy. -/
def jsTruthy : Option String → Bool
  | none => false
  | some s => !s.isEmpty

/-- JS string coercion used by `+` when the operand may be `undefined`. -/
def jsStrVal : Option String → String
  | none => "undefined"
  | some s => s

/-- JS `String.prototype.endsWith` (computable on the character data so
concrete instances evaluate by `decide`). -/
def jsEndsWith (s suffix : String) : Bool :=
  List.isSuffixOf suffix.data s.data

/-- Worker for `jsSplit`: scan the character data, emitting a token at
every occurrence of the (non-empty) separator.  The fuel starts at the
input length and only a positive-length separator match skips ahead, so
the fuel never runs out on the inputs the model uses. -/
def jsSplitAux (sep : List Char) : Nat → List Char → List Char → List (List Char)
  | _, [], acc => [acc.reverse]
  | 0, l, acc => [acc.reverse ++ l]
  | fuel + 1, c :: rest, acc =>
    if sep ≠ [] ∧ List.isPrefixOf sep (c :: rest) then
      acc.reverse :: jsSplitAux sep fuel ((c :: rest).drop sep.length) []
    else jsSplitAux sep fuel rest (c :: acc)

/-- JS `String.prototype.split` with a non-empty string separator. -/
def jsSplit (s sep : String) : List String :=
  (jsSplitAux sep.data s.data.length s.data []).map String.mk

/-- JS `Number.toFixed(1)` modelled on rationals (the source works on
IEEE doubles; rational rounding to the nearest tenth stands in for the
float formatting; only non-negative inputs arise). -/
def toFixed1 (q : ℚ) : String :=
  let n : Int := round (q * 10)
  toString (n / 10) ++ "." ++ toString (n % 10)

/-- Loop body of `humanFileSize`: `do { bytes /= thresh; ++u } while
(bytes >= thresh)` followed by the template string.  The fuel bound
models the finite exponent range of IEEE doubles; `units[u]` past the
end of the array is JS `undefined`, which the template renders as
`"undefined"`. -/
def hfsLoop (thresh : ℚ) (units : List String) : Nat → ℚ → Int → String
  | 0, b, u => toFixed1 b ++ " " ++ units.getD u.toNat "undefined"
  | fuel + 1, b, u =>
    let b' := b / thresh
    let u' := u + 1
    if b' ≥ thresh then hfsLoop thresh units fuel b' u'
    else toFixed1 b' ++ " " ++ units.getD u'.toNat "undefined"

/-- `humanFileSize(bytes, si)` from src/index.js (the `isNaN`/`typeof`
guard cannot fire for an `Int` input). -/
def humanFileSize (bytes : Int) (si : Bool) : String :=
  let thresh : Int := if si then 1000 else 1024
  let units : List String :=
    if si then ["kB", "MB", "GB", "TB", "PB", "EB", "ZB", "YB"]
    else ["KiB", "MiB", "GiB", "TiB", "PiB", "EiB", "ZiB", "YiB"]
  if bytes < thresh then toString bytes ++ " B"
  else hfsLoop (thresh : ℚ) units 100 (bytes : ℚ) (-1)

/-- `checkMountPoint(dir)` from src/index.js:
`dir.split(':/').splice(1).join(':/')`. -/
def checkMountPoint (dir : String) : String :=
  String.intercalate ":/" ((jsSplit dir ":/").drop 1)

/-- Input shapes accepted by `createFileItem`: a JS object (either a
backend listing entry carrying `filename`, or a raw upload descriptor
carrying `name`/`size`/`type`), or a bare string. -/
inductive RawEntry where
  | obj (f : JSObj)
  | str (s : String)
deriving DecidableEq, Repr

/-- `createFileItem(item, path)` from src/index.js. -/
def createFileItem (item : RawEntry) (path : String) : JSObj :=
  let basePath := if jsEndsWith path "/" then path else path ++ "/"
  match item with
  | .obj f =>
    if jsTruthy f.filename then
      { f with path := basePath ++ jsStrVal f.filename ++
                 (if f.isDirectory then "/" else "") }
    else
      { filename := f.name, isDirectory := false, isFile := true,
        mime := f.typ, humanSize := humanFileSize f.size false,
        size := f.size, path := basePath ++ jsStrVal f.name }
  | .str s =>
    { filename := some s, isDirectory := true, isFile := false,
      humanSize := "4 KiB", size := 4096, path := basePath ++ s }

/-- An opaque location descriptor (`{path: ...}` objects).  JS compares
these with `===`, which is object identity, not path equality: the
`ref` field carries the allocation identity standing in for the object
reference.  In any real run distinct allocations carry distinct `ref`s,
so structural equality of `Location` coincides with JS `===`; two
locations with equal `path` but different `ref` model two freshly
created objects naming the same directory, which `===` tells apart. -/
structure Location where
  path : String
  ref : Nat := 0
deriving DecidableEq, Repr

/-- The mount-point capability record returned by
`vfs.capabilities(path)`. -/
structure Capability where
  pagination : Bool
  page_size : Int
deriving DecidableEq, Repr

/-- The result of the `vfs.stat` call made at the start of an explicit
navigation. -/
structure StatInfo where
  totalCount : Int
  totalSize : Int
deriving DecidableEq, Repr

/-- The mutable per-session `state` object created in `createWindow`
(src/index.js).  `capability` is `none` while the JS object is still the
empty `{}`; `currentLastItem` keeps the JS value (a string, or the
`undefined` filename of a listed entry). -/
structure NavState where
  currentFile : Option JSObj := none
  currentPath : Location := ⟨"", 0⟩
  currentList : List JSObj := []
  currentPage : Int := 0
  fetchAllPages : Bool := false
  currentLastItem : Option String := some ""
  capability : Option Capability := none
  totalCount : Int := 0
  totalSize : Int := 0
deriving DecidableEq, Repr

/-- `removeDuplicates`'s `Set` of already-seen filenames; `Set.has` uses
SameValueZero, i.e. value equality with `undefined` equal to itself. -/
def seenHas : List (Option String) → Option String → Bool
  | [], _ => false
  | a :: s, f => jsStrEq a f || seenHas s f

/-- The stateful `list.filter` of `removeDuplicates`: the element is kept
iff its filename was not in the set before it was (unconditionally)
added. -/
def removeDuplicatesAux (seen : List (Option String)) : List JSObj → List JSObj
  | [] => []
  | x :: xs =>
    let isPresent := seenHas seen x.filename
    if isPresent then removeDuplicatesAux (x.filename :: seen) xs
    else x :: removeDuplicatesAux (x.filename :: seen) xs

/-- `removeDuplicates(list)` from src/index.js. -/
def removeDuplicates (l : List JSObj) : List JSObj :=
  removeDuplicatesAux [] l

/-- `createPagesList` from src/index.js, after the page fetch has
resolved to `page`.  `none` models the `TypeError` thrown by
`list[list.length - 1].filename` when the fetched page is empty (it is
thrown before any state mutation). -/
def createPagesList (s : NavState) (page : List JSObj) : Option NavState :=
  match page.getLast? with
  | none => none
  | some last =>
    let s₁ := { s with currentLastItem := last.filename,
                       currentPage := s.currentPage + 1 }
    let merged := removeDuplicates (s₁.currentList ++ page)
    let s₂ := { s₁ with currentList := merged }
    some (if (s₂.currentList.length : Int) = s₂.totalCount then
            { s₂ with fetchAllPages := true }
          else s₂)

/-- The inner `for` loop of `addToRenderedList` (only entered when the
list is non-empty): replace on equal filename, insert before the first
larger filename, append after the last element when strictly larger; a
filename that compares neither way (JS `undefined`) falls through
without insertion. -/
def insertLoop (addItem : JSObj) : List JSObj → List JSObj
  | [] => []
  | [x] =>
    if jsStrEq addItem.filename x.filename then [addItem]
    else if jsStrLt addItem.filename x.filename then [addItem, x]
    else if jsStrGt addItem.filename x.filename then [x, addItem]
    else [x]
  | x :: y :: xs =>
    if jsStrEq addItem.filename x.filename then addItem :: y :: xs
    else if jsStrLt addItem.filename x.filename then addItem :: x :: y :: xs
    else x :: insertLoop addItem (y :: xs)

/-- `addToRenderedList(state, item)` from src/index.js.  Note that the
`totalSize`/`totalCount` updates sit after the whole `if`/`else` and run
on every call. -/
def addToRenderedList (s : NavState) (item : RawEntry) : NavState :=
  let addItem := createFileItem item s.currentPath.path
  let list :=
    if s.currentList.length = 0 then [addItem]
    else insertLoop addItem s.currentList
  { s with currentList := list,
           totalSize := s.totalSize + addItem.size,
           totalCount := s.totalCount + 1 }

/-- JS `Array.prototype.indexOf(item, 0)`: index of the first entry equal
to `item`, or `-1`. -/
def jsIndexOf (l : List JSObj) (item : JSObj) : Int :=
  match l with
  | [] => -1
  | x :: t =>
    if x = item then 0
    else
      let r := jsIndexOf t item
      if r = -1 then -1 else r + 1

/-- The start position used by `splice(start, 1)`: a negative `start`
counts from the end, clamped at `0`. -/
def spliceStart (len : Nat) (i : Int) : Nat :=
  if i < 0 then (max ((len : Int) + i) 0).toNat else (min i (len : Int)).toNat

/-- `removeFromRenderedList(state, item)` from src/index.js:
`splice(indexOf(item), 1)` plus unconditional total decrements. -/
def removeFromRenderedList (s : NavState) (item : JSObj) : NavState :=
  { s with
    currentList :=
      s.currentList.eraseIdx
        (spliceStart s.currentList.length (jsIndexOf s.currentList item)),
    totalCount := s.totalCount - 1,
    totalSize := s.totalSize - item.size }

/-- The parent-path computation of `renameFromRenderedList`: strip a
trailing separator, split on `/`, drop the leaf, rejoin. -/
def renameBasePath (p : String) : String :=
  let path₁ := if jsEndsWith p "/" then p.dropRight 1 else p
  let splitPath := jsSplit path₁ "/"
  String.intercalate "/" (splitPath.take (splitPath.length - 1))

/-- `renameFromRenderedList(state, item, name)` from src/index.js. -/
def renameFromRenderedList (s : NavState) (item : JSObj) (name : String) : NavState :=
  let s₁ := removeFromRenderedList s item
  let item₁ := { item with filename := some name, path := renameBasePath item.path }
  addToRenderedList s₁ (.obj item₁)

/-- Whether `state.capability.pagination` is truthy (the empty `{}`
capability object yields `undefined`, i.e. falsy). -/
def capPagination (s : NavState) : Bool :=
  (s.capability.map (fun c => c.pagination)).getD false

/-- The fileview `scroll` action (src/index.js): under pagination, a
scroll that hits the bottom emits `filemanager:navigate` unless
`fetchAllPages` is set; the handler itself never mutates the state.
`hitBottom` models the `scrollTop + offsetHeight >= scrollHeight` DOM
measurement; the returned Bool is whether the navigate event fired. -/
def scrollAction (s : NavState) (hitBottom : Bool) : NavState × Bool :=
  if capPagination s then
    if s.fetchAllPages then (s, false)
    else (s, hitBottom)
  else (s, false)

/-- The hyperapp `history` sub-state. -/
structure HistoryState where
  index : Int
  list : List Location
deriving DecidableEq, Repr

/-- `history.push(path)` from src/index.js (`createActions`).  The
`lastHistory === path` comparison is JS object identity, modelled by
structural equality of the identity-carrying `Location`. -/
def historyPush (p : Location) (h : HistoryState) : HistoryState :=
  let newList := if h.index = -1 then [] else h.list
  match newList.getLast? with
  | some last =>
    if last = p then ⟨(newList.length : Int) - 1, newList⟩
    else ⟨(newList.length : Int), newList ++ [p]⟩
  | none => ⟨0, [p]⟩

/-- `history.back()` from src/index.js: returns the updated sub-state
together with the emitted `filemanager:navigate` payload — the location
`list[newIndex]` (JS `undefined`, i.e. `none`, when out of range) and
the literal `historyMode = true`. -/
def historyBack (h : HistoryState) : HistoryState × (Option Location × Bool) :=
  let newIndex := max 0 (h.index - 1)
  (⟨newIndex, h.list⟩, (h.list.get? newIndex.toNat, true))

/-- Outcomes of the awaited backend calls a single `readdir` run can make
(`vfs.capabilities`, `vfs.stat`, `vfs.readdir`); errors carry the JS
error message. -/
structure Env where
  capResult : Except String Capability
  statResult : Except String StatInfo
  listResult : Except String (List JSObj)
deriving Repr

/-- The `history` argument of `readdir(dir, history, selectFile)`:
`undefined`, `false`, `true`, or `'clear'`. -/
inductive HistArg where
  | undef
  | fls
  | tru
  | clear
deriving DecidableEq, Repr

/-- Events `readdir` emits on the window; `status` and `errorDialog`
carry the translation key and its `{0}` argument (translation lookup is
the external locale collaborator), `errorDialog` additionally carries
the raw backend error. -/
inductive Event where
  | status (key : String) (arg : String)
  | historyPush (dir : Location)
  | historyClear
  | readdirList (list : List JSObj) (path : String) (selectFile : Option String)
  | title (path : String)
  | errorDialog (error : String) (key : String) (arg : String)
deriving DecidableEq, Repr

/-- The window-level state around `NavState`: the `loading` window state
and `proc.args.path` (the session-restore argument). -/
structure FMState where
  nav : NavState := {}
  loading : Bool := false
  argsPath : Option Location := none
deriving DecidableEq, Repr

/-- Result of one `readdir` run: the state after all mutations, the
events emitted, and `thrown = some e` when an exception escaped the
function (an awaited call outside the `try` block rejected). -/
structure ReaddirOut where
  state : FMState
  events : List Event
  thrown : Option String
deriving DecidableEq, Repr

/-- The capability-detection step at the top of `readdir` (outside the
`try`): refetch only when `state.capability` is still the empty object;
a rejection escapes with the state unchanged (the assignment never
runs). -/
def capResolve (env : Env) (s : FMState) : FMState ⊕ String :=
  match s.nav.capability with
  | some _ => .inl s
  | none =>
    match env.capResult with
    | .ok c => .inl { s with nav := { s.nav with capability := some c } }
    | .error e => .inr e

/-- The tail of the `try` block shared by both listing modes: set
`proc.args.path` and `currentPath`, emit the history event selected by
the `history` argument, emit the listing and title, then run the
`finally` block (`currentFile = undefined`, `loading = false`). -/
def readdirFinish (s₁ : FMState) (nav₂ : NavState) (list : List JSObj)
    (dir : Location) (hist : HistArg) (selectFile : Option String)
    (ev : List Event) : ReaddirOut :=
  let s₂ := { s₁ with argsPath := some dir,
                      nav := { nav₂ with currentPath := dir } }
  let hev :=
    match hist with
    | .undef => [Event.historyPush dir]
    | .fls => [Event.historyPush dir]
    | .clear => [Event.historyClear]
    | .tru => []
  ⟨{ s₂ with loading := false, nav := { s₂.nav with currentFile := none } },
    ev ++ hev ++ [Event.readdirList list dir.path selectFile, Event.title dir.path],
    none⟩

/-- The `try`/`catch`/`finally` block of `readdir`, entered with the
resolved target directory.  A listing rejection (or the `TypeError` on
an empty paginated page) is caught: the error dialog fires with the
directory-qualified `MSG_READDIR_ERROR` message and the `finally` block
still resets `loading`. -/
def readdirBody (env : Env) (s : FMState) (dir : Location) (hist : HistArg)
    (selectFile : Option String) : ReaddirOut :=
  let s₁ := { s with loading := true }
  let ev := [Event.status "LBL_LOADING" dir.path]
  match env.listResult with
  | .error e =>
    ⟨{ s₁ with loading := false, nav := { s₁.nav with currentFile := none } },
      ev ++ [Event.errorDialog e "MSG_READDIR_ERROR" dir.path], none⟩
  | .ok fetched =>
    if capPagination s₁.nav then
      match createPagesList s₁.nav fetched with
      | none =>
        ⟨{ s₁ with loading := false, nav := { s₁.nav with currentFile := none } },
          ev ++ [Event.errorDialog "TypeError" "MSG_READDIR_ERROR" dir.path], none⟩
      | some nav₂ => readdirFinish s₁ nav₂ nav₂.currentList dir hist selectFile ev
    else
      readdirFinish s₁ { s₁.nav with currentList := fetched } fetched dir hist
        selectFile ev

/-- `readdir(dir, history, selectFile)` from `vfsActionFactory`
(src/index.js).  The `loading` guard returns immediately; capability
detection and, for an explicit target, the `stat` call and the total
updates (with the `checkMountPoint` adjustment) happen before the `try`
block, so their rejections escape uncaught. -/
def readdir (env : Env) (s : FMState) (dir? : Option Location) (hist : HistArg)
    (selectFile : Option String) : ReaddirOut :=
  if s.loading then ⟨s, [], none⟩
  else
    match capResolve env s with
    | .inr e => ⟨s, [], some e⟩
    | .inl s₁ =>
      match dir? with
      | none => readdirBody env s₁ s₁.nav.currentPath hist selectFile
      | some d =>
        match env.statResult with
        | .error e => ⟨s₁, [], some e⟩
        | .ok st =>
          let tc := st.totalCount +
            (if checkMountPoint d.path ≠ "" then 1 else 0)
          readdirBody env
            { s₁ with nav := { s₁.nav with totalCount := tc,
                                           totalSize := st.totalSize } }
            d hist selectFile

/-- `history.clear()` and the event wiring of `createWindow`: how the
events emitted by `readdir` act on the hyperapp history sub-state
(`filemanager:historyPush` → `history.push`, `filemanager:historyClear`
→ `history.clear`; other events do not touch it). -/
def applyHistoryEvent (h : HistoryState) : Event → HistoryState
  | .historyPush d => historyPush d h
  | .historyClear => ⟨-1, []⟩
  | _ => h

/-- Folding a whole emitted event list over the history sub-state. -/
def applyHistoryEvents (h : HistoryState) (evs : List Event) : HistoryState :=
  evs.foldl applyHistoryEvent h

/-- Recognizer for the two history-mutating events. -/
def isHistoryEvent : Event → Bool
  | .historyPush _ => true
  | .historyClear => true
  | _ => false

/-- Recognizer for error-dialog events. -/
def isErrorDialog : Event → Bool
  | .errorDialog _ _ _ => true
  | _ => false

/-- Recognizer for the emitted listing event. -/
def isReaddirList : Event → Bool
  | .readdirList _ _ _ => true
  | _ => false

/-- Repeated `addToRenderedList` calls (one per entry of `items`). -/
def applyAdds (s : NavState) (items : List RawEntry) : NavState :=
  items.foldl addToRenderedList s

/-- The sorted-ascending invariant of `currentList`: consecutive entries
strictly increase under the JS string comparison of their filenames. -/
abbrev fnLt (a b : JSObj) : Prop :=
  jsStrLt a.filename b.filename = true

/-- `currentList` sortedness as a chain of strict filename comparisons. -/
def SortedList (l : List JSObj) : Prop :=
  List.Chain' fnLt l

theorem strLtB_irrefl : ∀ l : List Char, strLtB l l = false := by
  intro l
  induction l with
  | nil => rfl
  | cons a as ih => simp [strLtB, ih]

theorem strLtB_cons {x y : Char} {as bs : List Char} :
    strLtB (x :: as) (y :: bs) = true ↔
      x.toNat < y.toNat ∨ (x.toNat = y.toNat ∧ strLtB as bs = true) := by
  simp only [strLtB]
  split_ifs with h1 h2
  · simp [h1]
  · simp only [Bool.false_eq_true, false_iff]
    rintro (h | ⟨h, _⟩) <;> omega
  · have h : x.toNat = y.toNat := by omega
    simp [h]

theorem strLtB_trans :
    ∀ a b c : List Char, strLtB a b = true → strLtB b c = true →
      strLtB a c = true := by
  intro a
  induction a with
  | nil => intro b c h1 h2; cases b <;> cases c <;> simp_all [strLtB]
  | cons x as ih =>
    intro b c h1 h2
    cases b with
    | nil => simp [strLtB] at h1
    | cons y bs =>
      cases c with
      | nil => simp [strLtB] at h2
      | cons z cs =>
        rw [strLtB_cons] at h1 h2 ⊢
        rcases h1 with h1 | ⟨e1, r1⟩
        · rcases h2 with h2 | ⟨e2, r2⟩
          · left; omega
          · left; omega
        · rcases h2 with h2 | ⟨e2, r2⟩
          · left; omega
          · right; exact ⟨by omega, ih bs cs r1 r2⟩

theorem strLtB_conn :
    ∀ a b : List Char, strLtB a b = false → strLtB b a = false → a = b := by
  intro a
  induction a with
  | nil =>
    intro b h1 h2
    cases b with
    | nil => rfl
    | cons y bs => simp [strLtB] at h1
  | cons x as ih =>
    intro b h1 h2
    cases b with
    | nil => simp [strLtB] at h2
    | cons y bs =>
      by_cases hxy : x.toNat < y.toNat
      · simp [strLtB, hxy] at h1
      · by_cases hyx : y.toNat < x.toNat
        · simp [strLtB, hyx] at h2
        · have hv : x.toNat = y.toNat := by omega
          have hx : x = y := Char.eq_of_val_eq (UInt32.ext hv)
          subst hx
          simp only [strLtB, if_neg hxy, if_neg hyx] at h1 h2
          rw [ih bs h1 h2]

theorem jsStrLt_trans {a b c : Option String}
    (h1 : jsStrLt a b = true) (h2 : jsStrLt b c = true) :
    jsStrLt a c = true := by
  cases a <;> cases b <;> cases c <;> simp_all [jsStrLt]
  exact strLtB_trans _ _ _ h1 h2

theorem jsStrLt_irrefl (a : Option String) : jsStrLt a a = false := by
  cases a <;> simp [jsStrLt, strLtB_irrefl]

theorem jsStrLt_isSome {a b : Option String} (h : jsStrLt a b = true) :
    a.isSome = true ∧ b.isSome = true := by
  cases a <;> cases b <;> simp_all [jsStrLt]

theorem jsStrLt_flip {a b : Option String}
    (hne : jsStrEq a b = false) (hab : jsStrLt a b = false)
    (ha : a.isSome = true) (hb : b.isSome = true) : jsStrLt b a = true := by
  cases a with
  | none => simp at ha
  | some x =>
    cases b with
    | none => simp at hb
    | some y =>
      simp only [jsStrLt]
      by_contra hba
      have hba' : strLtB y.data x.data = false := by
        cases h : strLtB y.data x.data
        · rfl
        · exact absurd h hba
      have hd : x.data = y.data :=
        strLtB_conn x.data y.data (by simpa [jsStrLt] using hab) hba'
      have : x = y := by
        cases x with
        | mk xd =>
          cases y with
          | mk yd => exact congrArg String.mk (by simpa using hd)
      simp [jsStrEq, this] at hne

theorem jsStrEq_eq {a b : Option String} (h : jsStrEq a b = true) : a = b :=
  of_decide_eq_true h

theorem insertLoop_sorted_aux (a : JSObj) :
    ∀ l : List JSObj, SortedList l →
      SortedList (insertLoop a l) ∧
      (∀ z : JSObj, SortedList (z :: l) →
        jsStrEq a.filename z.filename = false →
        jsStrLt a.filename z.filename = false →
        SortedList (z :: insertLoop a l)) := by
  intro l
  induction l with
  | nil =>
    intro _
    exact ⟨by simp [insertLoop, SortedList], fun z _ _ _ => by
      simp [insertLoop, SortedList]⟩
  | cons x t ih =>
    cases t with
    | nil =>
      intro _
      constructor
      · cases heq : jsStrEq a.filename x.filename with
        | true => simp [insertLoop, heq, SortedList]
        | false =>
          cases hlt : jsStrLt a.filename x.filename with
          | true =>
            simp [insertLoop, heq, hlt, SortedList, List.chain'_cons,
              List.chain'_singleton, fnLt]
          | false =>
            cases hgt : jsStrGt a.filename x.filename with
            | true =>
              simp only [insertLoop, heq, hlt, hgt, if_false, if_true,
                Bool.false_eq_true, SortedList]
              simp only [List.chain'_cons, List.chain'_singleton, and_true]
              simpa [jsStrGt, fnLt] using hgt
            | false => simp [insertLoop, heq, hlt, hgt, SortedList]
      · intro z hz hne hnl
        have hzx : fnLt z x := (List.chain'_cons.mp hz).1
        cases heq : jsStrEq a.filename x.filename with
        | true =>
          have hfa : a.filename = x.filename := jsStrEq_eq heq
          simp only [insertLoop, heq, if_true, SortedList]
          simp only [List.chain'_cons, List.chain'_singleton, and_true]
          show jsStrLt z.filename a.filename = true
          rw [hfa]
          exact hzx
        | false =>
          cases hlt : jsStrLt a.filename x.filename with
          | true =>
            have hza : fnLt z a :=
              jsStrLt_flip hne hnl (jsStrLt_isSome hlt).1 (jsStrLt_isSome hzx).1
            simp only [insertLoop, heq, hlt, if_true, Bool.false_eq_true,
              if_false, SortedList]
            simp only [List.chain'_cons, List.chain'_singleton, and_true]
            exact ⟨hza, hlt⟩
          | false =>
            cases hgt : jsStrGt a.filename x.filename with
            | true =>
              have hxa : fnLt x a := by simpa [jsStrGt, fnLt] using hgt
              simp only [insertLoop, heq, hlt, hgt, if_true,
                Bool.false_eq_true, if_false, SortedList]
              simp only [List.chain'_cons, List.chain'_singleton, and_true]
              exact ⟨hzx, hxa⟩
            | false =>
              simp only [insertLoop, heq, hlt, hgt, Bool.false_eq_true,
                if_false, SortedList]
              exact List.chain'_pair.mpr hzx
    | cons y xs =>
      intro h
      have hxy : fnLt x y := (List.chain'_cons.mp h).1
      have ht : SortedList (y :: xs) := (List.chain'_cons.mp h).2
      obtain ⟨ihS, ihZ⟩ := ih ht
      constructor
      · cases heq : jsStrEq a.filename x.filename with
        | true =>
          have hfa : a.filename = x.filename := jsStrEq_eq heq
          simp only [insertLoop, heq, if_true, SortedList]
          refine List.chain'_cons.mpr ⟨?_, ht⟩
          show jsStrLt a.filename y.filename = true
          rw [hfa]
          exact hxy
        | false =>
          cases hlt : jsStrLt a.filename x.filename with
          | true =>
            simp only [insertLoop, heq, hlt, if_true, Bool.false_eq_true,
              if_false, SortedList]
            exact List.chain'_cons.mpr ⟨hlt, h⟩
          | false =>
            simp only [insertLoop, heq, hlt, Bool.false_eq_true, if_false,
              SortedList]
            exact ihZ x h heq hlt
      · intro z hz hne hnl
        have hzx : fnLt z x := (List.chain'_cons.mp hz).1
        cases heq : jsStrEq a.filename x.filename with
        | true =>
          have hfa : a.filename = x.filename := jsStrEq_eq heq
          simp only [insertLoop, heq, if_true, SortedList]
          refine List.chain'_cons.mpr ⟨?_, List.chain'_cons.mpr ⟨?_, ht⟩⟩
          · show jsStrLt z.filename a.filename = true
            rw [hfa]
            exact hzx
          · show jsStrLt a.filename y.filename = true
            rw [hfa]
            exact hxy
        | false =>
          cases hlt : jsStrLt a.filename x.filename with
          | true =>
            have hza : fnLt z a :=
              jsStrLt_flip hne hnl (jsStrLt_isSome hlt).1 (jsStrLt_isSome hzx).1
            simp only [insertLoop, heq, hlt, if_true, Bool.false_eq_true,
              if_false, SortedList]
            exact List.chain'_cons.mpr ⟨hza, List.chain'_cons.mpr ⟨hlt, h⟩⟩
          | false =>
            simp only [insertLoop, heq, hlt, Bool.false_eq_true, if_false,
              SortedList]
            exact List.chain'_cons.mpr ⟨hzx, ihZ x h heq hlt⟩

theorem insertLoop_sorted (a : JSObj) (l : List JSObj) (h : SortedList l) :
    SortedList (insertLoop a l) :=
  (insertLoop_sorted_aux a l h).1

theorem addToRenderedList_sorted (s : NavState) (item : RawEntry)
    (h : SortedList s.currentList) :
    SortedList (addToRenderedList s item).currentList := by
  simp only [addToRenderedList]
  cases hl : s.currentList with
  | nil => simp [SortedList]
  | cons x t =>
    rw [hl] at h
    simp only [List.length_cons]
    rw [if_neg (by omega : ¬(t.length + 1 = 0))]
    exact insertLoop_sorted (createFileItem item s.currentPath.path) (x :: t) h

/-- Executable check for `SortedList`, used to discharge hypotheses on
concrete lists. -/
def sortedB : List JSObj → Bool
  | [] => true
  | [_] => true
  | x :: y :: t => jsStrLt x.filename y.filename && sortedB (y :: t)

theorem sortedB_iff : ∀ l : List JSObj, sortedB l = true ↔ SortedList l := by
  intro l
  induction l with
  | nil => simp [sortedB, SortedList]
  | cons x t ih =>
    cases t with
    | nil => simp [sortedB, SortedList]
    | cons y u =>
      simp only [sortedB, Bool.and_eq_true, SortedList, List.chain'_cons]
      rw [SortedList] at ih
      exact and_congr Iff.rfl ih

/-- Executable check for pairwise-distinct filenames. -/
def pairwiseNeB : List JSObj → Bool
  | [] => true
  | x :: t => (t.all fun y => !jsStrEq x.filename y.filename) && pairwiseNeB t

theorem pairwiseNeB_iff :
    ∀ l : List JSObj, pairwiseNeB l = true ↔
      List.Pairwise (fun a b : JSObj => a.filename ≠ b.filename) l := by
  intro l
  induction l with
  | nil => simp [pairwiseNeB]
  | cons x t ih =>
    simp only [pairwiseNeB, Bool.and_eq_true, List.pairwise_cons, List.all_eq_true]
    refine and_congr ?_ ih
    constructor
    · intro hb y hy
      have := hb y hy
      simpa [jsStrEq] using this
    · intro hb y hy
      have := hb y hy
      simpa [jsStrEq] using this

theorem sorted_pairwise :
    ∀ l : List JSObj, SortedList l → List.Pairwise fnLt l := by
  intro l
  induction l with
  | nil => exact fun _ => List.Pairwise.nil
  | cons x t ih =>
    intro h
    cases t with
    | nil => simp
    | cons y u =>
      have hxy : fnLt x y := (List.chain'_cons.mp h).1
      have ht : SortedList (y :: u) := (List.chain'_cons.mp h).2
      have pt := ih ht
      refine List.pairwise_cons.mpr ⟨?_, pt⟩
      intro b hb
      rcases List.mem_cons.mp hb with hb | hb
      · rw [hb]; exact hxy
      · exact jsStrLt_trans hxy ((List.pairwise_cons.mp pt).1 b hb)

theorem sorted_pairwise_ne (l : List JSObj) (h : SortedList l) :
    List.Pairwise (fun a b : JSObj => a.filename ≠ b.filename) l := by
  refine (sorted_pairwise l h).imp ?_
  intro a b hab heq
  have hab' : jsStrLt a.filename b.filename = true := hab
  rw [heq, jsStrLt_irrefl] at hab'
  exact Bool.false_ne_true hab'

theorem applyAdds_sorted (items : List RawEntry) :
    ∀ s : NavState, SortedList s.currentList →
      SortedList (applyAdds s items).currentList := by
  induction items with
  | nil => exact fun s h => h
  | cons i t ih =>
    intro s h
    have h1 := addToRenderedList_sorted s i h
    simpa [applyAdds, List.foldl_cons] using ih (addToRenderedList s i) h1

/-- C1: for every finite sequence of `insertOrReplace` calls
(`addToRenderedList`) applied to a state whose `currentList` starts
empty or strictly sorted by filename (hence duplicate-free), the list
after the calls of any such sequence — so in particular after every
prefix of a longer sequence, i.e. after every call — is again sorted
strictly ascending by `filename` under the JS string comparison and
contains no two entries with the same `filename`. -/
theorem claim1_insertOrReplace_sorted (s : NavState) (items : List RawEntry)
    (h : SortedList s.currentList) :
    SortedList (applyAdds s items).currentList ∧
    List.Pairwise (fun a b : JSObj => a.filename ≠ b.filename)
      (applyAdds s items).currentList := by
  have hs := applyAdds_sorted items s h
  exact ⟨hs, sorted_pairwise_ne _ hs⟩

/-- Concrete starting state for the C1 witness. -/
def c1s : NavState :=
  { currentPath := ⟨"home:/", 0⟩,
    currentList := [{ filename := some "b", path := "home:/b", size := 1 }] }

/-- Concrete insertion sequence for the C1 witness: a fresh name, a
directory-name string, and a replacement of an existing name. -/
def c1items : List RawEntry :=
  [.obj { filename := some "d", size := 2 },
   .str "a",
   .obj { filename := some "b", size := 9 }]

/-- C1 witness: the theorem applied at a concrete state and sequence. -/
theorem claim1_witness :
    SortedList c1s.currentList ∧
    (SortedList (applyAdds c1s c1items).currentList ∧
      List.Pairwise (fun a b : JSObj => a.filename ≠ b.filename)
        (applyAdds c1s c1items).currentList) :=
  ⟨(sortedB_iff _).mp (by decide),
    claim1_insertOrReplace_sorted c1s c1items ((sortedB_iff _).mp (by decide))⟩

/-- Existing entry used by the C3 counterexample. -/
def c3a : JSObj := { filename := some "a", path := "home:/a", size := 1 }

/-- Replacement entry with the same filename but a different size. -/
def c3a2 : JSObj := { filename := some "a", size := 7 }

/-- State holding exactly `c3a` with matching totals. -/
def c3s : NavState :=
  { currentPath := ⟨"home:/", 0⟩, currentList := [c3a],
    totalCount := 1, totalSize := 1 }

/-- C3 counterexample: inserting an item whose filename already exists
replaces the entry in place (the list keeps length 1 and the single
filename `a`), yet `totalCount` and `totalSize` both change — refuting
the claim that a replacement leaves the totals unchanged. -/
theorem claim3_counterexample :
    (addToRenderedList c3s (RawEntry.obj c3a2)).currentList.length
        = c3s.currentList.length ∧
    (addToRenderedList c3s (RawEntry.obj c3a2)).currentList.map
        (fun f => f.filename) = [some "a"] ∧
    (addToRenderedList c3s (RawEntry.obj c3a2)).totalCount ≠ c3s.totalCount ∧
    (addToRenderedList c3s (RawEntry.obj c3a2)).totalSize ≠ c3s.totalSize := by
  refine ⟨rfl, rfl, ?_, ?_⟩ <;> decide

/-- C3 (amended): `addToRenderedList` increments `totalCount` by 1 and
`totalSize` by the (normalized) item's size on every call — on a fresh
insert and equally on an in-place replacement; the updates sit after
the whole insert/replace branch in the source and are unconditional. -/
theorem claim3_totals_unconditional (s : NavState) (item : RawEntry) :
    (addToRenderedList s item).totalCount = s.totalCount + 1 ∧
    (addToRenderedList s item).totalSize =
      s.totalSize + (createFileItem item s.currentPath.path).size := by
  constructor <;> simp [addToRenderedList]

theorem jsIndexOf_not_mem {l : List JSObj} {item : JSObj} (h : ¬ item ∈ l) :
    jsIndexOf l item = -1 := by
  induction l with
  | nil => rfl
  | cons x t ih =>
    have hx : ¬ x = item := fun hx => h (by rw [← hx]; exact List.mem_cons_self x t)
    have ht : ¬ item ∈ t := fun hm => h (List.mem_cons_of_mem x hm)
    simp [jsIndexOf, hx, ih ht]

theorem eraseIdx_last {α : Type} : ∀ l : List α,
    l.eraseIdx (l.length - 1) = l.dropLast := by
  intro l
  induction l with
  | nil => rfl
  | cons x t ih =>
    cases t with
    | nil => rfl
    | cons y u =>
      simp only [List.length_cons, Nat.add_sub_cancel] at ih ⊢
      rw [List.eraseIdx_cons_succ, List.dropLast_cons₂, ih]

/-- C10: calling `removeFromRenderedList` with an item that has no equal
entry in a non-empty `currentList` removes the last element
(`indexOf` yields `-1` and `splice(-1, 1)` deletes the final entry) and
still decrements `totalCount` by 1 and `totalSize` by `item.size`. -/
theorem claim10_remove_absent_drops_last (s : NavState) (item : JSObj)
    (hne : s.currentList ≠ []) (hnm : ¬ item ∈ s.currentList) :
    (removeFromRenderedList s item).currentList = s.currentList.dropLast ∧
    (removeFromRenderedList s item).totalCount = s.totalCount - 1 ∧
    (removeFromRenderedList s item).totalSize = s.totalSize - item.size := by
  refine ⟨?_, rfl, rfl⟩
  simp only [removeFromRenderedList]
  rw [jsIndexOf_not_mem hnm]
  have hlen : 1 ≤ s.currentList.length := by
    cases hl : s.currentList with
    | nil => exact absurd hl hne
    | cons a b => simp
  have hs : spliceStart s.currentList.length (-1) = s.currentList.length - 1 := by
    simp only [spliceStart]
    rw [if_pos (by omega : (-1 : Int) < 0)]
    omega
  rw [hs, eraseIdx_last]

/-- First list entry for the C10 witness. -/
def c10a : JSObj := { filename := some "a", size := 1 }

/-- Second (and last) list entry for the C10 witness. -/
def c10b : JSObj := { filename := some "b", size := 2 }

/-- An item not present in the list (same filename as `c10b`, different
size, so no entry is `===`-identical to it). -/
def c10x : JSObj := { filename := some "b", size := 5 }

/-- Concrete state for the C10 witness. -/
def c10s : NavState :=
  { currentPath := ⟨"home:/", 0⟩, currentList := [c10a, c10b],
    totalCount := 2, totalSize := 3 }

/-- C10 witness: the theorem applied at a concrete state and absent item. -/
theorem claim10_witness :
    (c10s.currentList ≠ [] ∧ ¬ c10x ∈ c10s.currentList) ∧
    ((removeFromRenderedList c10s c10x).currentList = c10s.currentList.dropLast ∧
      (removeFromRenderedList c10s c10x).totalCount = c10s.totalCount - 1 ∧
      (removeFromRenderedList c10s c10x).totalSize = c10s.totalSize - c10x.size) :=
  ⟨⟨by decide, by decide⟩,
    claim10_remove_absent_drops_last c10s c10x (by decide) (by decide)⟩

theorem createFileItem_size (f : JSObj) (p : String) :
    (createFileItem (.obj f) p).size = f.size := by
  simp only [createFileItem]
  split <;> rfl

theorem sorted_eraseIdx (l : List JSObj) (n : Nat) (h : SortedList l) :
    SortedList (l.eraseIdx n) :=
  List.Pairwise.chain' ((sorted_pairwise l h).sublist (List.eraseIdx_sublist l n))

/-- C9: for an item present in a sorted duplicate-free `currentList`,
`renameFromRenderedList` with any new name leaves `totalCount` and
`totalSize` unchanged (the remove decrements cancel the unconditional
add increments, and the normalizer preserves `size`), and the resulting
list is again strictly sorted by filename with no duplicate filenames. -/
theorem claim9_rename_preserves (s : NavState) (item : JSObj) (name : String)
    (hs : SortedList s.currentList) (_hm : item ∈ s.currentList) :
    (renameFromRenderedList s item name).totalCount = s.totalCount ∧
    (renameFromRenderedList s item name).totalSize = s.totalSize ∧
    SortedList (renameFromRenderedList s item name).currentList ∧
    List.Pairwise (fun a b : JSObj => a.filename ≠ b.filename)
      (renameFromRenderedList s item name).currentList := by
  have hrm : SortedList (removeFromRenderedList s item).currentList := by
    simp only [removeFromRenderedList]
    exact sorted_eraseIdx _ _ hs
  have hsorted := addToRenderedList_sorted (removeFromRenderedList s item)
    (.obj { item with filename := some name,
                      path := renameBasePath item.path }) hrm
  refine ⟨?_, ?_, hsorted, sorted_pairwise_ne _ hsorted⟩
  · simp only [renameFromRenderedList, addToRenderedList, removeFromRenderedList]
    omega
  · simp only [renameFromRenderedList, addToRenderedList, removeFromRenderedList]
    rw [createFileItem_size]
    have hsz : ({ item with filename := some name,
                            path := renameBasePath item.path } : JSObj).size
        = item.size := rfl
    rw [hsz]
    omega

/-- First list entry for the C9 witness. -/
def c9a : JSObj := { filename := some "a", path := "home:/a", size := 1 }

/-- Second list entry for the C9 witness (the one renamed). -/
def c9b : JSObj := { filename := some "b", path := "home:/b", size := 2 }

/-- Concrete state for the C9 witness. -/
def c9s : NavState :=
  { currentPath := ⟨"home:/", 0⟩, currentList := [c9a, c9b],
    totalCount := 2, totalSize := 3 }

/-- C9 witness: the theorem applied at a concrete state, item and name. -/
theorem claim9_witness :
    (SortedList c9s.currentList ∧ c9b ∈ c9s.currentList) ∧
    ((renameFromRenderedList c9s c9b "c").totalCount = c9s.totalCount ∧
      (renameFromRenderedList c9s c9b "c").totalSize = c9s.totalSize ∧
      SortedList (renameFromRenderedList c9s c9b "c").currentList ∧
      List.Pairwise (fun a b : JSObj => a.filename ≠ b.filename)
        (renameFromRenderedList c9s c9b "c").currentList) :=
  ⟨⟨(sortedB_iff _).mp (by decide), by decide⟩,
    claim9_rename_preserves c9s c9b "c" ((sortedB_iff _).mp (by decide))
      (by decide)⟩

theorem historyPush_top_eq (p : Location) (h : HistoryState)
    (hidx : h.index ≠ -1) (hl : h.list.getLast? = some p) :
    historyPush p h = ⟨(h.list.length : Int) - 1, h.list⟩ := by
  simp [historyPush, if_neg hidx, hl]

theorem historyPush_append (p : Location) (h : HistoryState)
    (hidx : h.index ≠ -1) (hl : h.list.getLast? ≠ some p) :
    historyPush p h = ⟨(h.list.length : Int), h.list ++ [p]⟩ := by
  simp only [historyPush, if_neg hidx]
  cases hle : h.list.getLast? with
  | none =>
    have he : h.list = [] := List.getLast?_eq_none_iff.mp hle
    simp [he]
  | some q =>
    have hq : ¬ q = p := fun hqp => hl (hqp ▸ hle)
    simp [hq]

theorem historyPush_getLast (p : Location) (h : HistoryState) :
    (historyPush p h).list.getLast? = some p ∧ (historyPush p h).index ≠ -1 := by
  by_cases hidx : h.index = -1
  · have : historyPush p h = ⟨0, [p]⟩ := by
      simp [historyPush, if_pos hidx]
    rw [this]
    simp
  · cases hle : h.list.getLast? with
    | none =>
      have he : h.list = [] := List.getLast?_eq_none_iff.mp hle
      have : historyPush p h = ⟨0, [p]⟩ := by
        simp [historyPush, if_neg hidx, he]
      rw [this]
      simp
    | some q =>
      by_cases hq : q = p
      · subst hq
        rw [historyPush_top_eq q h hidx hle]
        refine ⟨hle, ?_⟩
        have hne : h.list ≠ [] := by
          intro hnil
          rw [hnil] at hle
          simp at hle
        have h1 : 1 ≤ h.list.length := List.length_pos.mpr hne
        show (h.list.length : Int) - 1 ≠ -1
        omega
      · rw [historyPush_append p h hidx (by rw [hle]; simp [hq])]
        refine ⟨List.getLast?_concat _, ?_⟩
        show (h.list.length : Int) ≠ -1
        omega

/-- C7 counterexample: the stack's top is the location object
`⟨"home:/", 1⟩` (allocation 1); pushing a freshly allocated location
with the same path — "a location equal to the current top" in the
claim's sense — appends it rather than refreshing the index: the list
grows from length 1 to 2 and the two consecutive entries carry equal
paths.  The source compares `lastHistory === path`, object identity,
which a fresh object never satisfies, so pushing "the same location"
twice in a row from separate navigations does grow the list. -/
theorem claim7_counterexample :
    (⟨0, [⟨"home:/", 1⟩]⟩ : HistoryState).list.length = 1 ∧
    (historyPush ⟨"home:/", 2⟩ ⟨0, [⟨"home:/", 1⟩]⟩).list.length = 2 ∧
    (historyPush ⟨"home:/", 2⟩ ⟨0, [⟨"home:/", 1⟩]⟩).list
      = [⟨"home:/", 1⟩, ⟨"home:/", 2⟩] ∧
    (⟨"home:/", 1⟩ : Location).path = (⟨"home:/", 2⟩ : Location).path := by
  refine ⟨rfl, ?_, ?_, rfl⟩ <;> decide

/-- C7 (amended): `history.push` deduplicates only on object identity
(`===`).  If the pushed location is the very same object as the stack's
last entry, the list is unchanged and `index` points at that top;
otherwise — including a freshly created location whose `path` equals
the top's — the location is appended and `index` advances to the new
last position.  Consequently pushing the identical object twice in a
row never grows the list and consecutive entries are never the
identical object; but consecutive entries with equal paths do occur
(last conjunct), so same-path re-navigations grow the stack. -/
theorem claim7_push_identity (h : HistoryState) (p : Location) :
    (h.index ≠ -1 → h.list.getLast? = some p →
      (historyPush p h).list = h.list ∧
      (historyPush p h).index = (h.list.length : Int) - 1) ∧
    (h.index ≠ -1 → h.list.getLast? ≠ some p →
      (historyPush p h).list = h.list ++ [p] ∧
      (historyPush p h).index = (h.list.length : Int)) ∧
    (historyPush p (historyPush p h)).list.length
      = (historyPush p h).list.length ∧
    (List.Chain' (fun a b : Location => a ≠ b) h.list →
      List.Chain' (fun a b : Location => a ≠ b) (historyPush p h).list) ∧
    (∀ q : Location, h.index ≠ -1 → h.list.getLast? = some q →
      q.path = p.path → q ≠ p →
      (historyPush p h).list = h.list ++ [p]) := by
  refine ⟨?_, ?_, ?_, ?_, ?_⟩
  · intro hidx hlast
    rw [historyPush_top_eq p h hidx hlast]
    exact ⟨rfl, rfl⟩
  · intro hidx hlast
    rw [historyPush_append p h hidx hlast]
    exact ⟨rfl, rfl⟩
  · obtain ⟨hl, hidx⟩ := historyPush_getLast p h
    rw [historyPush_top_eq p _ hidx hl]
  · intro hch
    by_cases hidx : h.index = -1
    · have : historyPush p h = ⟨0, [p]⟩ := by
        simp [historyPush, if_pos hidx]
      rw [this]
      simp
    · cases hle : h.list.getLast? with
      | none =>
        have he : h.list = [] := List.getLast?_eq_none_iff.mp hle
        have : historyPush p h = ⟨0, [p]⟩ := by
          simp [historyPush, if_neg hidx, he]
        rw [this]
        simp
      | some q =>
        by_cases hq : q = p
        · subst hq
          rw [historyPush_top_eq q h hidx hle]
          exact hch
        · rw [historyPush_append p h hidx (by rw [hle]; simp [hq])]
          rw [List.chain'_append]
          refine ⟨hch, List.chain'_singleton p, ?_⟩
          intro x hx y hy
          simp only [List.head?_cons, Option.mem_def, Option.some.injEq] at hy
          rw [hle] at hx
          simp only [Option.mem_def, Option.some.injEq] at hx
          rw [← hx, ← hy]
          exact hq
  · intro q hidx hql _ hne
    have hlast : h.list.getLast? ≠ some p := by
      rw [hql]
      exact fun hc => hne (Option.some.inj hc)
    rw [historyPush_append p h hidx hlast]

/-- Concrete history stack for the C7 witness; the entries carry their
allocation identities. -/
def c7h : HistoryState := ⟨1, [⟨"a", 1⟩, ⟨"b", 2⟩]⟩

/-- C7 witness: the amended theorem applied at a concrete stack — once
re-pushing the identical top object (deduplicated), once pushing a
fresh location with a new path (appended), and once pushing a fresh
location with the top's path (appended, the corrected behavior). -/
theorem claim7_witness :
    ((historyPush ⟨"b", 2⟩ c7h).list = c7h.list ∧
      (historyPush ⟨"b", 2⟩ c7h).index = (c7h.list.length : Int) - 1) ∧
    ((historyPush ⟨"c", 3⟩ c7h).list = c7h.list ++ [⟨"c", 3⟩] ∧
      (historyPush ⟨"c", 3⟩ c7h).index = (c7h.list.length : Int)) ∧
    (historyPush ⟨"b", 2⟩ (historyPush ⟨"b", 2⟩ c7h)).list.length
      = (historyPush ⟨"b", 2⟩ c7h).list.length ∧
    List.Chain' (fun a b : Location => a ≠ b) (historyPush ⟨"b", 2⟩ c7h).list ∧
    (historyPush ⟨"b", 7⟩ c7h).list = c7h.list ++ [⟨"b", 7⟩] :=
  ⟨(claim7_push_identity c7h ⟨"b", 2⟩).1 (by decide) (by decide),
    (claim7_push_identity c7h ⟨"c", 3⟩).2.1 (by decide) (by decide),
    (claim7_push_identity c7h ⟨"b", 2⟩).2.2.1,
    (claim7_push_identity c7h ⟨"b", 2⟩).2.2.2.1
      (List.chain'_pair.mpr (by decide)),
    (claim7_push_identity c7h ⟨"b", 7⟩).2.2.2.2 ⟨"b", 2⟩ (by decide)
      (by decide) (by decide) (by decide)⟩

/-- C6: a page merge (`createPagesList`) that leaves `currentList.length`
equal to `totalCount` sets `fetchAllPages = true`, and every scroll
signal handled while `fetchAllPages` is `true` (on the merged state or
any later state still carrying the flag) emits no navigate event and
leaves the state unchanged. -/
theorem claim6_pagination_stops (s : NavState) (page : List JSObj)
    (s' : NavState) (h : createPagesList s page = some s') :
    ((s'.currentList.length : Int) = s'.totalCount → s'.fetchAllPages = true) ∧
    (∀ t : NavState, t.fetchAllPages = true →
      ∀ hb : Bool, scrollAction t hb = (t, false)) := by
  constructor
  · intro hlen
    simp only [createPagesList] at h
    cases hg : page.getLast? with
    | none => simp [hg] at h
    | some last =>
      simp only [hg, Option.some.injEq] at h
      split at h
      · rw [← h]
      · rw [← h] at hlen
        exact absurd hlen (by assumption)
  · intro t ht hb
    by_cases hc : capPagination t <;> simp [scrollAction, ht, hc]

/-- First page entry already present before the C6 witness merge. -/
def c6a : JSObj := { filename := some "a", size := 1 }

/-- Newly fetched entry for the C6 witness merge. -/
def c6b : JSObj := { filename := some "b", size := 2 }

/-- Pagination-capable state with one of two entries already fetched. -/
def c6s : NavState :=
  { currentPath := ⟨"home:/", 0⟩, currentList := [c6a],
    capability := some ⟨true, 2⟩, totalCount := 2, totalSize := 3,
    currentPage := 1, currentLastItem := some "a" }

/-- The state after the C6 witness merge. -/
def c6s' : NavState :=
  { c6s with currentList := [c6a, c6b], currentPage := 2,
             currentLastItem := some "b", fetchAllPages := true }

/-- C6 witness: the theorem applied to a concrete merge that completes
the listing, plus the resulting no-op scroll. -/
theorem claim6_witness :
    createPagesList c6s [c6b] = some c6s' ∧
    c6s'.fetchAllPages = true ∧
    scrollAction c6s' true = (c6s', false) :=
  ⟨by decide,
    (claim6_pagination_stops c6s [c6b] c6s' (by decide)).1 (by decide),
    (claim6_pagination_stops c6s [c6b] c6s' (by decide)).2 c6s'
      ((claim6_pagination_stops c6s [c6b] c6s' (by decide)).1 (by decide)) true⟩

/-- C4: a `readdir` entered while the window `loading` state is `true`
returns immediately: the state is unchanged, no events are emitted (so
in particular `currentPath`, `currentList` and the history sub-state
keep their prior values), and nothing is thrown — for requests with or
without an explicit target location. -/
theorem claim4_loading_guard (env : Env) (s : FMState) (dir? : Option Location)
    (hist : HistArg) (selectFile : Option String) (h : s.loading = true) :
    readdir env s dir? hist selectFile = ⟨s, [], none⟩ ∧
    (∀ hs : HistoryState, applyHistoryEvents hs
      (readdir env s dir? hist selectFile).events = hs) := by
  have hr : readdir env s dir? hist selectFile = ⟨s, [], none⟩ := by
    simp [readdir, h]
  exact ⟨hr, fun hs => by rw [hr]; rfl⟩

/-- Environment for the C4 witness (its contents are irrelevant because
the guard fires first). -/
def c4env : Env :=
  { capResult := .ok ⟨false, 0⟩,
    statResult := .ok ⟨3, 30⟩,
    listResult := .ok [{ filename := some "a", size := 1 }] }

/-- A loading state for the C4 witness. -/
def c4s : FMState :=
  { nav := { currentPath := ⟨"home:/", 0⟩, capability := some ⟨false, 0⟩ },
    loading := true }

/-- C4 witness: the theorem applied at a concrete loading state. -/
theorem claim4_witness :
    readdir c4env c4s (some ⟨"home:/sub", 0⟩) HistArg.undef none = ⟨c4s, [], none⟩ ∧
    applyHistoryEvents ⟨0, [⟨"home:/", 0⟩]⟩
      (readdir c4env c4s (some ⟨"home:/sub", 0⟩) HistArg.undef none).events
      = ⟨0, [⟨"home:/", 0⟩]⟩ :=
  ⟨(claim4_loading_guard c4env c4s (some ⟨"home:/sub", 0⟩) HistArg.undef none
      (by decide)).1,
    (claim4_loading_guard c4env c4s (some ⟨"home:/sub", 0⟩) HistArg.undef none
      (by decide)).2 ⟨0, [⟨"home:/", 0⟩]⟩⟩

theorem readdirBody_error (env : Env) (s₂ : FMState) (d : Location)
    (hist : HistArg) (sel : Option String) (e : String)
    (he : env.listResult = .error e) :
    readdirBody env s₂ d hist sel =
      ⟨{ s₂ with loading := false, nav := { s₂.nav with currentFile := none } },
        [Event.status "LBL_LOADING" d.path,
         Event.errorDialog e "MSG_READDIR_ERROR" d.path], none⟩ := by
  simp [readdirBody, he]

/-- C5 (amended): when the `stat` call succeeds and the listing call
fails during a navigation to an explicit target, the error is surfaced
exactly once, through the error dialog with the directory-qualified
`MSG_READDIR_ERROR` message; `currentPath`, `currentList` and the
history keep their prior values and `loading` is `false` afterwards.
However `totalCount` and `totalSize` do not keep their prior values:
they were already overwritten with the freshly statted totals (plus the
mount-point adjustment) before the listing was attempted.  And when the
`stat` call itself fails, the rejection escapes `readdir` before the
`try` block, so no error dialog fires at all (the state is unchanged in
that case). -/
theorem claim5_listing_failure (env : Env) (s : FMState) (d : Location)
    (hist : HistArg) (sel : Option String) (st : StatInfo) (e : String)
    (hload : s.loading = false)
    (hcap : s.nav.capability.isSome = true ∨ ∃ c, env.capResult = .ok c)
    (hstat : env.statResult = .ok st)
    (hlist : env.listResult = .error e) :
    (readdir env s (some d) hist sel).thrown = none ∧
    (readdir env s (some d) hist sel).state.loading = false ∧
    (readdir env s (some d) hist sel).state.nav.currentPath
      = s.nav.currentPath ∧
    (readdir env s (some d) hist sel).state.nav.currentList
      = s.nav.currentList ∧
    (readdir env s (some d) hist sel).events.filter isErrorDialog
      = [Event.errorDialog e "MSG_READDIR_ERROR" d.path] ∧
    (readdir env s (some d) hist sel).events.filter isHistoryEvent = [] ∧
    (∀ hs : HistoryState,
      applyHistoryEvents hs (readdir env s (some d) hist sel).events = hs) ∧
    (readdir env s (some d) hist sel).state.nav.totalCount
      = st.totalCount + (if checkMountPoint d.path ≠ "" then 1 else 0) ∧
    (readdir env s (some d) hist sel).state.nav.totalSize = st.totalSize ∧
    (∀ env' : Env, ∀ e' : String, env'.statResult = .error e' →
      s.nav.capability.isSome = true →
      readdir env' s (some d) hist sel = ⟨s, [], some e'⟩) := by
  have hmain : ∃ s₁ : FMState, capResolve env s = .inl s₁ ∧
      s₁.loading = false ∧
      s₁.nav.currentPath = s.nav.currentPath ∧
      s₁.nav.currentList = s.nav.currentList := by
    cases hc : s.nav.capability with
    | some c => exact ⟨s, by simp [capResolve, hc], hload, rfl, rfl⟩
    | none =>
      rcases hcap with hs | ⟨c, hce⟩
      · rw [hc] at hs
        simp at hs
      · refine ⟨{ s with nav := { s.nav with capability := some c } },
          ?_, hload, rfl, rfl⟩
        simp [capResolve, hc, hce]
  obtain ⟨s₁, hc1, hl1, hp1, hcl1⟩ := hmain
  have hr : readdir env s (some d) hist sel =
      ⟨{ { s₁ with nav := { s₁.nav with
              totalCount := st.totalCount +
                (if checkMountPoint d.path ≠ "" then 1 else 0),
              totalSize := st.totalSize } } with
          loading := false,
          nav := { { s₁.nav with
              totalCount := st.totalCount +
                (if checkMountPoint d.path ≠ "" then 1 else 0),
              totalSize := st.totalSize } with currentFile := none } },
        [Event.status "LBL_LOADING" d.path,
         Event.errorDialog e "MSG_READDIR_ERROR" d.path], none⟩ := by
    rw [readdir]
    rw [if_neg (by rw [hload]; exact Bool.false_ne_true)]
    rw [hc1, hstat]
    exact readdirBody_error env _ d hist sel e hlist
  rw [hr]
  refine ⟨rfl, rfl, hp1, hcl1, ?_, ?_, ?_, rfl, rfl, ?_⟩
  · simp [isErrorDialog]
  · simp [isHistoryEvent]
  · intro hs
    simp [applyHistoryEvents, applyHistoryEvent]
  · intro env' e' hse hcs
    obtain ⟨c, hc⟩ := Option.isSome_iff_exists.mp hcs
    rw [readdir]
    rw [if_neg (by rw [hload]; exact Bool.false_ne_true)]
    simp [capResolve, hc, hse]

/-- The single listed entry of the previous (still displayed) listing in
the C5 scenario. -/
def c5obj : JSObj := { filename := some "a", path := "home:/a", size := 1 }

/-- Environment for the C5 scenario: the stat succeeds with fresh totals
and the listing call rejects. -/
def c5env : Env :=
  { capResult := .ok ⟨false, 0⟩,
    statResult := .ok ⟨10, 100⟩,
    listResult := .error "EIO" }

/-- Pre-navigation state for the C5 scenario, holding the previous
listing and its totals. -/
def c5s : FMState :=
  { nav := { currentPath := ⟨"home:/", 0⟩, currentList := [c5obj],
             capability := some ⟨false, 0⟩,
             totalCount := 5, totalSize := 50 },
    loading := false }

/-- The navigation target of the C5 scenario (below the mount point, so
the `checkMountPoint` adjustment adds one). -/
def c5d : Location := ⟨"home:/sub", 0⟩

/-- C5 counterexample: a navigation whose listing call fails leaves the
error dialog to fire, but `totalCount` is `11` afterwards (the fresh
stat total `10` plus the mount-point adjustment), not the prior `5` —
refuting the claim that `totalCount` and `totalSize` keep the values
they had before the navigation. -/
theorem claim5_counterexample :
    c5s.nav.totalCount = 5 ∧
    (readdir c5env c5s (some c5d) HistArg.undef none).state.nav.totalCount
      = 11 ∧
    (readdir c5env c5s (some c5d) HistArg.undef none).state.nav.totalCount
      ≠ c5s.nav.totalCount ∧
    c5s.nav.totalSize = 50 ∧
    (readdir c5env c5s (some c5d) HistArg.undef none).state.nav.totalSize
      = 100 := by
  refine ⟨rfl, ?_, ?_, rfl, ?_⟩ <;> decide

/-- C5 witness: the amended theorem applied at the concrete C5 scenario,
including the stat-failure clause at a second environment. -/
theorem claim5_witness :
    (readdir c5env c5s (some c5d) HistArg.undef none).thrown = none ∧
    (readdir c5env c5s (some c5d) HistArg.undef none).state.loading = false ∧
    (readdir c5env c5s (some c5d) HistArg.undef none).state.nav.currentPath
      = c5s.nav.currentPath ∧
    (readdir c5env c5s (some c5d) HistArg.undef none).state.nav.currentList
      = c5s.nav.currentList ∧
    (readdir c5env c5s (some c5d) HistArg.undef none).events.filter isErrorDialog
      = [Event.errorDialog "EIO" "MSG_READDIR_ERROR" c5d.path] ∧
    (readdir c5env c5s (some c5d) HistArg.undef none).events.filter isHistoryEvent
      = [] ∧
    applyHistoryEvents ⟨0, [⟨"home:/", 0⟩]⟩
      (readdir c5env c5s (some c5d) HistArg.undef none).events
      = ⟨0, [⟨"home:/", 0⟩]⟩ ∧
    (readdir c5env c5s (some c5d) HistArg.undef none).state.nav.totalCount
      = (10 : Int) + (if checkMountPoint c5d.path ≠ "" then 1 else 0) ∧
    (readdir c5env c5s (some c5d) HistArg.undef none).state.nav.totalSize
      = 100 ∧
    readdir { c5env with statResult := .error "ENOENT" } c5s (some c5d)
        HistArg.undef none
      = ⟨c5s, [], some "ENOENT"⟩ := by
  have h := claim5_listing_failure c5env c5s c5d HistArg.undef none
    ⟨10, 100⟩ "EIO" (by decide) (Or.inl (by decide)) rfl rfl
  exact ⟨h.1, h.2.1, h.2.2.1, h.2.2.2.1, h.2.2.2.2.1, h.2.2.2.2.2.1,
    h.2.2.2.2.2.2.1 ⟨0, [⟨"home:/", 0⟩]⟩, h.2.2.2.2.2.2.2.1,
    h.2.2.2.2.2.2.2.2.1,
    h.2.2.2.2.2.2.2.2.2 { c5env with statResult := .error "ENOENT" } "ENOENT"
      rfl (by decide)⟩

theorem readdirBody_tru_no_history (env : Env) (s₂ : FMState) (d : Location)
    (sel : Option String) :
    (readdirBody env s₂ d HistArg.tru sel).events.filter isHistoryEvent = [] := by
  rcases hl : env.listResult with e | fetched
  · simp [readdirBody, hl, isHistoryEvent]
  · by_cases hp : capPagination s₂.nav
    · cases hcp : createPagesList { s₂ with loading := true }.nav fetched with
      | none => simp [readdirBody, hl, hp, hcp, isHistoryEvent]
      | some nav₂ =>
        simp [readdirBody, hl, hp, hcp, readdirFinish, isHistoryEvent]
    · simp [readdirBody, hl, hp, readdirFinish, isHistoryEvent]

/-- C8 (amended): `history.back()` always emits a
`filemanager:navigate` event with `historyMode = true` — also on an
empty stack, where `index` becomes `0` and the emitted location is
`list[0]`, i.e. JS `undefined`; in general `index` becomes
`max 0 (index - 1)` and the emitted location is `list[index]`.  The
`historyMode = true` flag means the navigation does not re-push: a
`readdir` run with it emits no history events. -/
theorem claim8_back_behavior (h : HistoryState) :
    (historyBack h).1.index = max 0 (h.index - 1) ∧
    (historyBack h).1.list = h.list ∧
    (historyBack h).2 = (h.list.get? (max 0 (h.index - 1)).toNat, true) ∧
    (∀ (env : Env) (s : FMState) (dir? : Option Location) (sel : Option String),
      (readdir env s dir? HistArg.tru sel).events.filter isHistoryEvent = []) := by
  refine ⟨rfl, rfl, rfl, ?_⟩
  intro env s dir? sel
  by_cases hload : s.loading = true
  · simp [readdir, hload]
  · rw [readdir, if_neg hload]
    cases hc : capResolve env s with
    | inr e => simp
    | inl s₁ =>
      cases dir? with
      | none => exact readdirBody_tru_no_history env s₁ s₁.nav.currentPath sel
      | some d =>
        cases hst : env.statResult with
        | error e => simp
        | ok st => exact readdirBody_tru_no_history env _ d sel

/-- The single backend entry of the C8 scenario. -/
def c8obj : JSObj := { filename := some "x", path := "home:/x", size := 1 }

/-- Environment for the C8 scenario: a working non-paginated backend. -/
def c8env : Env :=
  { capResult := .ok ⟨false, 0⟩,
    statResult := .ok ⟨1, 1⟩,
    listResult := .ok [c8obj] }

/-- Idle session state for the C8 scenario: a current path is set (e.g.
after Home, whose `'clear'` mode emptied the history), the history is
empty. -/
def c8s : FMState :=
  { nav := { currentPath := ⟨"home:/", 0⟩, currentList := [],
             capability := some ⟨false, 0⟩ },
    loading := false }

/-- C8 counterexample: `back()` on the empty history stack still emits a
navigate event — payload `(undefined, historyMode = true)` — and sets
`index` to `0`; the wired `readdir` (an undefined target resolves to
`currentPath`) then performs a real listing: `currentList` changes and
a `filemanager:readdir` event fires.  This refutes the claim that no
navigation is triggered. -/
theorem claim8_counterexample :
    (historyBack ⟨-1, []⟩).2 = (none, true) ∧
    (historyBack ⟨-1, []⟩).1.index = 0 ∧
    (readdir c8env c8s none HistArg.tru none).state.nav.currentList
      = [c8obj] ∧
    (readdir c8env c8s none HistArg.tru none).state.nav.currentList
      ≠ c8s.nav.currentList ∧
    (readdir c8env c8s none HistArg.tru none).events.filter isReaddirList
      = [Event.readdirList [c8obj] "home:/" none] := by
  refine ⟨rfl, rfl, ?_, ?_, ?_⟩ <;> decide

theorem seenHas_append (s₁ s₂ : List (Option String)) (f : Option String) :
    seenHas (s₁ ++ s₂) f = (seenHas s₁ f || seenHas s₂ f) := by
  induction s₁ with
  | nil => simp [seenHas]
  | cons a t ih => simp [seenHas, ih, Bool.or_assoc]

theorem rdAux_congr : ∀ (l : List JSObj) (s₁ s₂ : List (Option String)),
    (∀ x ∈ l, seenHas s₁ x.filename = seenHas s₂ x.filename) →
    removeDuplicatesAux s₁ l = removeDuplicatesAux s₂ l := by
  intro l
  induction l with
  | nil => intro s₁ s₂ _; rfl
  | cons x t ih =>
    intro s₁ s₂ hx
    have hx0 : seenHas s₁ x.filename = seenHas s₂ x.filename :=
      hx x (List.mem_cons_self x t)
    have ht : ∀ y ∈ t, seenHas (x.filename :: s₁) y.filename
        = seenHas (x.filename :: s₂) y.filename := by
      intro y hy
      simp [seenHas, hx y (List.mem_cons_of_mem x hy)]
    simp only [removeDuplicatesAux, hx0]
    rw [ih _ _ ht]

theorem rdAux_append : ∀ (l₁ l₂ : List JSObj) (seen : List (Option String)),
    removeDuplicatesAux seen (l₁ ++ l₂) =
      removeDuplicatesAux seen l₁ ++
        removeDuplicatesAux (l₁.map (fun y => y.filename) ++ seen) l₂ := by
  intro l₁
  induction l₁ with
  | nil => intro l₂ seen; simp [removeDuplicatesAux]
  | cons x t ih =>
    intro l₂ seen
    have hmid : ∀ f, seenHas (t.map (fun y => y.filename) ++
        (x.filename :: seen)) f =
        seenHas ((x.filename :: t.map (fun y => y.filename)) ++ seen) f := by
      intro f
      simp [seenHas_append, seenHas, Bool.or_left_comm]
    simp only [List.cons_append, removeDuplicatesAux, List.map_cons,
      List.append_eq]
    by_cases hp : seenHas seen x.filename
    · simp only [hp, if_true]
      rw [ih l₂ (x.filename :: seen)]
      rw [rdAux_congr l₂ _ _ (fun y _ => hmid y.filename)]
      simp [List.cons_append]
    · simp only [hp, Bool.false_eq_true, if_false]
      rw [ih l₂ (x.filename :: seen)]
      rw [rdAux_congr l₂ _ _ (fun y _ => hmid y.filename)]
      simp [List.cons_append]

theorem rdAux_id : ∀ (l : List JSObj) (seen : List (Option String)),
    List.Pairwise (fun a b : JSObj => a.filename ≠ b.filename) l →
    (∀ x ∈ l, seenHas seen x.filename = false) →
    removeDuplicatesAux seen l = l := by
  intro l
  induction l with
  | nil => intro seen _ _; rfl
  | cons x t ih =>
    intro seen hpw hseen
    have hx : seenHas seen x.filename = false :=
      hseen x (List.mem_cons_self x t)
    simp only [removeDuplicatesAux, hx, Bool.false_eq_true, if_false]
    rw [ih (x.filename :: seen) (List.pairwise_cons.mp hpw).2]
    intro y hy
    have hne : x.filename ≠ y.filename :=
      (List.pairwise_cons.mp hpw).1 y hy
    simp [seenHas, jsStrEq, hne, hseen y (List.mem_cons_of_mem x hy)]

theorem rdAux_filter : ∀ (l : List JSObj) (S' S : List (Option String)),
    removeDuplicatesAux (S' ++ S) l =
      removeDuplicatesAux S' (l.filter fun x => !(seenHas S x.filename)) := by
  intro l
  induction l with
  | nil => intro S' S; rfl
  | cons x t ih =>
    intro S' S
    by_cases hS : seenHas S x.filename
    · have hp : seenHas (S' ++ S) x.filename = true := by
        simp [seenHas_append, hS]
      have hfx : (!seenHas S x.filename) = false := by simp [hS]
      simp only [removeDuplicatesAux, hp, if_true, List.filter_cons, hfx,
        Bool.false_eq_true, if_false]
      rw [← List.cons_append, ih (x.filename :: S') S]
      apply rdAux_congr
      intro y hy
      have hyS : seenHas S y.filename = false := by
        have := (List.mem_filter.mp hy).2
        simpa using this
      have hne : jsStrEq x.filename y.filename = false := by
        by_cases heq : x.filename = y.filename
        · rw [heq] at hS
          rw [hS] at hyS
          exact absurd hyS (by simp)
        · simp [jsStrEq, heq]
      simp [seenHas, hne]
    · have hp : seenHas (S' ++ S) x.filename = seenHas S' x.filename := by
        simp [seenHas_append, hS]
      have hfx : (!seenHas S x.filename) = true := by simp [hS]
      by_cases hS' : seenHas S' x.filename
      · simp only [removeDuplicatesAux, hp, hS', if_true, List.filter_cons,
          hfx]
        rw [← List.cons_append, ih (x.filename :: S') S]
      · simp only [removeDuplicatesAux, hp, hS', Bool.false_eq_true, if_false,
          List.filter_cons, hfx, if_true]
        rw [← List.cons_append, ih (x.filename :: S') S]

theorem removeDuplicates_append_keep_first (l₁ l₂ : List JSObj)
    (h : List.Pairwise (fun a b : JSObj => a.filename ≠ b.filename) l₁) :
    removeDuplicates (l₁ ++ l₂) =
      l₁ ++ removeDuplicates (l₂.filter fun x =>
        !(seenHas (l₁.map fun y => y.filename) x.filename)) := by
  rw [removeDuplicates, rdAux_append l₁ l₂ []]
  rw [rdAux_id l₁ [] h (fun x _ => rfl)]
  congr 1
  have hd := rdAux_filter l₂ [] (l₁.map fun y => y.filename)
  simp only [List.nil_append] at hd
  simp only [List.append_nil]
  exact hd

/-- C2 (amended): when `createPagesList` merges a freshly fetched page
into `currentList` (whose filenames are pairwise distinct), the
deduplication keeps the EARLIER occurrence of every filename: the new
`currentList` is the old one, unchanged and in order, followed by the
page entries whose filenames were not already present (themselves
deduplicated).  A later-arriving entry whose filename already occurs in
the accumulated list is dropped, not kept. -/
theorem claim2_merge_keeps_first (s : NavState) (page : List JSObj)
    (s' : NavState) (h : createPagesList s page = some s')
    (hnd : List.Pairwise (fun a b : JSObj => a.filename ≠ b.filename)
      s.currentList) :
    s'.currentList = s.currentList ++
      removeDuplicates (page.filter fun x =>
        !(seenHas (s.currentList.map fun y => y.filename) x.filename)) := by
  simp only [createPagesList] at h
  cases hg : page.getLast? with
  | none => simp [hg] at h
  | some last =>
    simp only [hg, Option.some.injEq] at h
    split at h <;> rw [← h] <;>
      exact removeDuplicates_append_keep_first _ _ hnd

/-- The entry already accumulated before the C2 merge. -/
def c2old : JSObj := { filename := some "a", path := "home:/a", size := 1 }

/-- A later-arriving page entry with the same filename as `c2old` but
different contents. -/
def c2new : JSObj := { filename := some "a", path := "home:/a", size := 2 }

/-- A genuinely new page entry. -/
def c2b : JSObj := { filename := some "b", path := "home:/b", size := 3 }

/-- Accumulated pagination state before the C2 merge. -/
def c2s : NavState :=
  { currentPath := ⟨"home:/", 0⟩, currentList := [c2old],
    capability := some ⟨true, 2⟩, totalCount := 99, totalSize := 0,
    currentPage := 1, currentLastItem := some "a" }

/-- The state after the C2 witness merge. -/
def c2s' : NavState :=
  { c2s with currentList := [c2old, c2b], currentPage := 2,
             currentLastItem := some "b" }

/-- C2 counterexample: merging a page that re-delivers filename `a` with
different contents keeps the EARLIER entry (`c2old`, size 1), not the
later-arriving one (`c2new`, size 2) — refuting the claim that the
later occurrence is the one kept. -/
theorem claim2_counterexample :
    (createPagesList c2s [c2new, c2b]).map (fun t => t.currentList)
      = some [c2old, c2b] ∧
    c2old ≠ c2new ∧
    (createPagesList c2s [c2new, c2b]).map (fun t => t.currentList)
      ≠ some [c2new, c2b] := by
  refine ⟨?_, ?_, ?_⟩ <;> decide

/-- C2 witness: the amended theorem applied at the concrete merge. -/
theorem claim2_witness :
    c2s'.currentList = c2s.currentList ++
      removeDuplicates (([c2new, c2b]).filter fun x =>
        !(seenHas (c2s.currentList.map fun y => y.filename) x.filename)) :=
  claim2_merge_keeps_first c2s [c2new, c2b] c2s' (by decide)
    ((pairwiseNeB_iff _).mp (by decide))
